import Mathlib

/-!
Verification development for the CodexUP run orchestrator
(`src/codexup.py`).  Each Python function relevant to the frozen claims is
shallowly embedded as an executable Lean definition; theorems about those
definitions settle the claims.

Modelling conventions:
* Python strings are `List Char`.
* Python values read from JSON that may be `None`, an `int`, or anything
  else are modelled by `PyVal` (`vint n` / `vnone` / `vother`); `vother`
  stands for any value that is neither `None` nor an `int`.
* Floats are modelled as rationals (`ℚ`).
* A raised Python exception is modelled as `none` / a dedicated
  constructor, as indicated at each definition.
-/

namespace CodexUP

/-- A Python value that may be `None`, an `int`, or any other object. -/
inductive PyVal
  | vint (n : Int)
  | vnone
  | vother
deriving DecidableEq

/-! ## Agent Process Runner: `run_codex` (codexup.py lines 79-148)

One line of combined stdout/stderr of the subprocess is abstracted by the
two observations the loop body makes of it:
* whether the line contains `"usage_limit_reached"` or
  `"Too Many Requests"` (`hasUsageLimitSignal`), and
* the result of `line.find("{")` / `json.loads` /
  `payload.get("error", {}).get("resets_in_seconds")`:
  `parsedResets = some r` when that chain produced an `int` `r`, and
  `none` when the brace was missing, parsing raised, or the value was not
  an `int` (in which case the Python code leaves `usage_limit_wait`
  unchanged). -/
structure OutputLine where
  hasUsageLimitSignal : Bool
  parsedResets : Option Int
deriving DecidableEq

/-- The value of `usage_limit_wait` after the line-reading loop of one
attempt (codexup.py lines 121-135): starts at `None`; a line with the
signal and a successfully parsed integer overwrites it; a line with the
signal but no parsed integer leaves it unchanged. -/
def scanUsageLimit (lines : List OutputLine) : Option Int :=
  lines.foldl
    (fun acc line =>
      if line.hasUsageLimitSignal then
        match line.parsedResets with
        | some r => some r
        | none => acc
      else acc)
    none

/-- The environment's behaviour on one attempt: the output lines the
subprocess emits, its exit code, and the attempt's wall-clock duration. -/
structure AttemptSpec where
  lines : List OutputLine
  exitCode : Int
  duration : ℚ
deriving DecidableEq

/-- Observable trace of `run_codex`: every subprocess launch is recorded
as `(attempt number, run id carried by the prompt)`; every backoff sleep
records its length in seconds; `result` is the `(exit_code, duration)`
pair returned, or `none` when the supplied attempt list was exhausted
while the loop would still be retrying (the Python loop has no retry
ceiling). -/
structure RunCodexTrace where
  invocations : List (Nat × Nat)
  sleeps : List Int
  result : Option (Int × ℚ)
deriving DecidableEq

/-- The `while True` retry loop of `run_codex` (codexup.py lines 103-148),
driven by the list of attempts the environment will produce.  `n` is the
value of `attempt` after `attempt += 1`.  When `usage_limit_wait` is
`None` after an attempt, the attempt log is promoted and
`(exit_code, attempt_duration)` is returned; otherwise the runner sleeps
`usage_limit_wait + 5` seconds and retries with the next attempt
number. -/
def runCodexGo (runId : Nat) : List AttemptSpec → Nat → RunCodexTrace
  | [], _ => ⟨[], [], none⟩
  | a :: rest, n =>
    match scanUsageLimit a.lines with
    | none => ⟨[(n, runId)], [], some (a.exitCode, a.duration)⟩
    | some w =>
      let t := runCodexGo runId rest (n + 1)
      ⟨(n, runId) :: t.invocations, (w + 5) :: t.sleeps, t.result⟩

/-- `run_codex` for a prompt carrying run id `runId` (the id is injected
into the prompt by `_run_target` before `run_codex` is called and is the
same for every attempt of the loop).  Attempt numbering starts at 1. -/
def run_codex (runId : Nat) (attempts : List AttemptSpec) : RunCodexTrace :=
  runCodexGo runId attempts 1

/-! ## Token/Cost Extractor: `parse_token_usage_from_session`
(codexup.py lines 184-244)

A session JSONL line is abstracted by what the scanning loop extracts from
it: either it is skipped (`junk`: unparseable JSON, `type != "event_msg"`,
`payload.type != "token_count"`, or `total_token_usage` not a dict), or it
carries a `total_token_usage` dict, whose five relevant entries are
`PyVal`s (a missing key reads as Python `None`, i.e. `vnone`). -/
structure TotalTokenUsage where
  input_tokens : PyVal
  cached_input_tokens : PyVal
  output_tokens : PyVal
  reasoning_output_tokens : PyVal
  total_tokens : PyVal
deriving DecidableEq

/-- One line of the session file, as observed by the scanning loop. -/
inductive SessionLine
  | junk
  | tokenCount (t : TotalTokenUsage)
deriving DecidableEq

/-- The value of `last_total` after the scanning loop (codexup.py lines
195-211): the last `total_token_usage` dict seen, if any. -/
def lastTotal (ls : List SessionLine) : Option TotalTokenUsage :=
  ls.foldl (fun acc l => match l with | .junk => acc | .tokenCount t => some t) none

/-- The dict returned by `parse_token_usage_from_session`. -/
structure TokenUsageOut where
  input_tokens : PyVal
  cached_tokens : PyVal
  output_tokens : PyVal
  reasoning_tokens : PyVal
  total_tokens : PyVal
deriving DecidableEq

/-- The all-`None` token dict. -/
def noneTokensOut : TokenUsageOut := ⟨.vnone, .vnone, .vnone, .vnone, .vnone⟩

/-- `parse_token_usage_from_session` (codexup.py lines 184-244).  The
argument is `none` when `session_path` is falsy or the file does not
exist.  Normalization: `input_tokens = raw_input - cached` only when both
are ints and `cached <= raw_input`; `total_tokens` is recomputed as
`input_tokens + cached + output_tokens + reasoning_tokens` exactly when
all four of those are ints, and otherwise passed through from the
record. -/
def parse_token_usage_from_session (session : Option (List SessionLine)) :
    TokenUsageOut :=
  match session with
  | none => noneTokensOut
  | some ls =>
    match lastTotal ls with
    | none => noneTokensOut
    | some last =>
      let raw_input := last.input_tokens
      let cached := last.cached_input_tokens
      let input_tokens :=
        match raw_input, cached with
        | .vint r, .vint c => if c ≤ r then PyVal.vint (r - c) else PyVal.vint r
        | _, _ => raw_input
      let output_tokens := last.output_tokens
      let reasoning_tokens := last.reasoning_output_tokens
      let total_tokens :=
        match input_tokens, cached, output_tokens, reasoning_tokens with
        | .vint a, .vint c, .vint o, .vint g => PyVal.vint (a + c + o + g)
        | _, _, _, _ => last.total_tokens
      ⟨input_tokens, cached, output_tokens, reasoning_tokens, total_tokens⟩

/-! ## Artifact Inspector: `read_coverage_metrics`
(codexup.py lines 247-292)

The coverage JSON is abstracted at the granularity of the `isinstance`
checks the code performs: the `"coverage"` value is a dict of
file path → (dict of function → (dict of line → status)) where any
non-dict value at the inner levels is skipped; statuses are kept as the
`str(...)` of the JSON value. -/
inductive LinesVal
  | notDict
  | lines (entries : List (List Char × List Char))
deriving DecidableEq

/-- The value attached to a file path in the coverage dict. -/
inductive FuncsVal
  | notDict
  | funcs (fs : List (List Char × LinesVal))
deriving DecidableEq

/-- The `"coverage"` value of the report (`viewer.get("coverage", {})`);
`notDict` makes the `isinstance(coverage, dict)` guard fail. -/
inductive CoverageVal
  | notDict
  | dict (files : List (List Char × FuncsVal))
deriving DecidableEq

/-- A parsed `viewer-coverage.json`: the three entries of
`overall_coverage` (each `vnone` when missing) plus the coverage map. -/
structure CoverageReport where
  overall_hit : PyVal
  overall_total : PyVal
  overall_percentage : PyVal
  coverage : CoverageVal
deriving DecidableEq

/-- State of the coverage artifact on disk: missing file, file present
but `json.load` raises, or parsed report. -/
inductive CovArtifact
  | missing
  | unparseable
  | parsed (r : CoverageReport)
deriving DecidableEq

/-- `str(status).lower() in {"hit", "covered", "1", "true"}`. -/
def isHit (status : List Char) : Bool :=
  let l := status.map Char.toLower
  l == ("hit".data) || l == ("covered".data) || l == ("1".data) || l == ("true".data)

/-- `"_harness.c"`, the harness-file suffix. -/
def harnessSuffix : List Char := "_harness.c".data

/-- Body of the loop over `lines.items()`: `non_harness_total += 1` for
every entry, `non_harness_hit += 1` when the status matches.  The
accumulator is `(non_harness_hit, non_harness_total)`. -/
def lineStep (a : Nat × Nat) (e : List Char × List Char) : Nat × Nat :=
  (a.1 + (if isHit e.2 then 1 else 0), a.2 + 1)

/-- Inner loop over `lines.items()`. -/
def lineFold (acc : Nat × Nat) (entries : List (List Char × List Char)) :
    Nat × Nat :=
  entries.foldl lineStep acc

/-- Body of the loop over `funcs.items()`: non-dict `lines` values are
skipped. -/
def funcStep (a : Nat × Nat) (f : List Char × LinesVal) : Nat × Nat :=
  match f.2 with
  | .notDict => a
  | .lines es => lineFold a es

/-- Middle loop over `funcs.items()`. -/
def funcFold (acc : Nat × Nat) (fs : List (List Char × LinesVal)) : Nat × Nat :=
  fs.foldl funcStep acc

/-- Body of the loop over `coverage.items()`: file paths ending in
`"_harness.c"` and non-dict `funcs` values are skipped. -/
def fileStep (a : Nat × Nat) (file : List Char × FuncsVal) : Nat × Nat :=
  if harnessSuffix.isSuffixOf file.1 then a
  else match file.2 with
    | .notDict => a
    | .funcs fs => funcFold a fs

/-- Outer loop over `coverage.items()` (codexup.py lines 262-276):
returns `(non_harness_hit, non_harness_total)`. -/
def nonHarnessCounts (cov : CoverageVal) : Nat × Nat :=
  match cov with
  | .notDict => (0, 0)
  | .dict files => files.foldl fileStep (0, 0)

/-- The `"overall"` entry of the returned dict: the report's own summary
values passed through verbatim. -/
structure OverallOut where
  hit : PyVal
  total : PyVal
  percentage : PyVal
deriving DecidableEq

/-- The `"non_harness"` entry of the returned dict. -/
structure NonHarnessOut where
  hit : Nat
  total : Nat
  percentage : Option ℚ
deriving DecidableEq

/-- The dict returned by `read_coverage_metrics` (`coverage_path` is
omitted: it is a constant function of `proof_dir`). -/
structure CovOut where
  overall : Option OverallOut
  non_harness : Option NonHarnessOut
deriving DecidableEq

/-- `read_coverage_metrics` (codexup.py lines 247-292).  A missing or
unparseable file yields `overall = None`, `non_harness = None`;
otherwise `overall` is passed through verbatim and `non_harness` is
recomputed, with `percentage = hit / total` when `total` is nonzero and
`None` otherwise. -/
def read_coverage_metrics : CovArtifact → CovOut
  | .missing => ⟨none, none⟩
  | .unparseable => ⟨none, none⟩
  | .parsed r =>
    let c := nonHarnessCounts r.coverage
    ⟨some ⟨r.overall_hit, r.overall_total, r.overall_percentage⟩,
     some ⟨c.1, c.2, if c.2 = 0 then none else some ((c.1 : ℚ) / (c.2 : ℚ))⟩⟩

/-! ## Artifact Inspector: `read_verification_results`
(codexup.py lines 295-308) -/

/-- The `"false"` entry of `viewer-result.results`: a list is abstracted
by its length. -/
inductive FalseVal
  | list (n : Nat)
  | notList
deriving DecidableEq

/-- State of `viewer-result.json`: missing, raising on `json.load`, or
parsed with an optional `"false"` entry (`none` = key missing, in which
case `results.get("false", [])` supplies `[]`). -/
inductive VerifArtifact
  | missing
  | unparseable
  | parsed (falseVal : Option FalseVal)
deriving DecidableEq

/-- `read_verification_results` reduced to its `error_count` value
(`result_path` is a constant function of `proof_dir`): `None` when the
file is missing or unparseable; otherwise `len(false_list)` where a
missing or non-list `"false"` entry is replaced by `[]`. -/
def read_verification_results : VerifArtifact → Option Nat
  | .missing => none
  | .unparseable => none
  | .parsed none => some 0
  | .parsed (some (.list n)) => some n
  | .parsed (some .notList) => some 0

/-! ## Token/Cost Extractor: `estimate_cost` (codexup.py lines 311-347)

The pricing dict is restricted to the four keys the code reads; float
arithmetic is modelled over ℚ. -/
inductive CostKey
  | input
  | output
  | cached
  | reasoning
deriving DecidableEq

/-- A pricing table: per-million rate for each category, or `none` when
the key is not configured. -/
def Pricing : Type := CostKey → Option ℚ

/-- Token counts as typed by `estimate_cost`'s signature
(`Dict[str, Optional[int]]`); only the four component counts are read. -/
structure TokensIn where
  input_tokens : Option Int
  cached_tokens : Option Int
  output_tokens : Option Int
  reasoning_tokens : Option Int
deriving DecidableEq

/-- The all-`None` token-count dict. -/
def noneTokensIn : TokensIn := ⟨none, none, none, none⟩

/-- The inner helper `_cost`: `None` when the count or the rate is
missing, else `(count / 1_000_000.0) * rate`. -/
def costOfKey (count : Option Int) (rate : Option ℚ) : Option ℚ :=
  match count with
  | none => none
  | some c =>
    match rate with
    | none => none
    | some r => some ((c : ℚ) / 1000000 * r)

/-- The dict returned by `estimate_cost`. -/
structure CostsOut where
  input_cost : Option ℚ
  output_cost : Option ℚ
  cached_cost : Option ℚ
  reasoning_cost : Option ℚ
  total_cost : Option ℚ
deriving DecidableEq

/-- The all-`None` cost dict. -/
def noneCostsOut : CostsOut := ⟨none, none, none, none, none⟩

/-- The `total_cost` accumulation loop (codexup.py lines 334-339):
accumulator is `(total_cost, any_cost)`. -/
def totalStep (acc : ℚ × Bool) (v : Option ℚ) : ℚ × Bool :=
  match v with
  | none => acc
  | some x => (acc.1 + x, true)

/-- `estimate_cost` (codexup.py lines 311-347).  `pricing = none` models
a falsy (`None` or empty) pricing dict. -/
def estimate_cost (tokens : TokensIn) (pricing : Option Pricing) : CostsOut :=
  match pricing with
  | none => noneCostsOut
  | some p =>
    let input_cost := costOfKey tokens.input_tokens (p .input)
    let output_cost := costOfKey tokens.output_tokens (p .output)
    let cached_cost := costOfKey tokens.cached_tokens (p .cached)
    let reasoning_cost := costOfKey tokens.reasoning_tokens (p .reasoning)
    let tot := [input_cost, output_cost, cached_cost, reasoning_cost].foldl
      totalStep (0, false)
    ⟨input_cost, output_cost, cached_cost, reasoning_cost,
     if tot.2 then some tot.1 else none⟩

/-! ## Prompt Renderer: `remove_section` (codexup.py lines 49-67)

The regex `\[<header>\][\s\S]*?(\n\[[^\]]+\])` matches, leftmost-first and
with a lazy gap, a literal `[<header>]` followed by the earliest
subsequent occurrence of newline + `[` + one-or-more non-`]` chars + `]`;
`re.sub`-free replacement `text[:start] + group(1) + text[end:]` then
amounts to deleting everything from the `[<header>]` up to (excluding)
that next section header.  When the full pattern has no match, the tail
pattern `\[<header>\][\s\S]*$` truncates from the `[<header>]` to the end
of the text; when that does not match either, the text is returned
unchanged. -/

/-- Index of the first suffix of `l` satisfying `p`, if any. -/
def findSufIdx (p : List Char → Bool) : List Char → Option Nat
  | [] => if p [] then some 0 else none
  | c :: rest =>
    if p (c :: rest) then some 0 else (findSufIdx p rest).map (· + 1)

/-- The literal section-header pattern `[<header>]`. -/
def sectionPat (header : List Char) : List Char := '[' :: (header ++ [']'])

/-- Whether a next-section-header match (`\n\[[^\]]+\]`) starts at the
head of `l`. -/
def isNextHeaderAt : List Char → Bool
  | '\n' :: '[' :: rest =>
    let run := rest.takeWhile (fun c => c != ']')
    !run.isEmpty && ((rest.drop run.length).head? == some ']')
  | _ => false

/-- `remove_section` (codexup.py lines 49-67) on `List Char`. -/
def remove_section (text : List Char) (header : List Char) : List Char :=
  match findSufIdx (fun s => (sectionPat header).isPrefixOf s) text with
  | none => text
  | some i =>
    match findSufIdx isNextHeaderAt
        (text.drop (i + (sectionPat header).length)) with
    | some off => text.take i ++ text.drop (i + (sectionPat header).length + off)
    | none => text.take i

/-- Number of positions of `t` at which the pattern `pat` occurs. -/
def occCount (pat t : List Char) : Nat :=
  ((Finset.range (t.length + 1)).filter
    (fun i => pat.isPrefixOf (t.drop i) = true)).card

/-! ## Prompt Renderer: `str.format_map` and `render_prompt`
(codexup.py lines 70-76)

`format_map` is modelled for the placeholder language this program uses:
literal text, `{name}` placeholders, and the `{{` / `}}` escapes (the
templates in scope use no format specs or conversions).  The result is
`none` when Python would raise: a `KeyError` for a placeholder whose key
the mapping lacks (the spec's `TemplateError`), or a `ValueError` for a
stray or unterminated brace. -/
def formatMap (ctx : List Char → Option (List Char)) :
    List Char → Option (List Char)
  | [] => some []
  | c :: rest =>
    if c = '{' then
      if rest.head? = some '{' then
        (formatMap ctx rest.tail).map (fun r => '{' :: r)
      else
        let key := rest.takeWhile (fun x => x != '}')
        if (rest.drop key.length).head? = some '}' then
          (ctx key).bind (fun v =>
            (formatMap ctx ((rest.drop key.length).tail)).map (fun r => v ++ r))
        else none
    else if c = '}' then
      if rest.head? = some '}' then
        (formatMap ctx rest.tail).map (fun r => '}' :: r)
      else none
    else
      (formatMap ctx rest).map (fun r => c :: r)
termination_by l => l.length
decreasing_by
  all_goals simp [List.length_tail, List.length_drop]
  all_goals omega

/-- The header name whose section `render_prompt` removes. -/
def examplesHeader : List Char := "Examples".data

/-- `render_prompt` (codexup.py lines 70-76): strip the `Examples`
section unless `use_examples`, then substitute placeholders; `none`
models the propagated exception of a failed substitution. -/
def render_prompt (template : List Char) (ctx : List Char → Option (List Char))
    (use_examples : Bool) : Option (List Char) :=
  let out := if use_examples then template else remove_section template examplesHeader
  formatMap ctx out

/-! ## Target Orchestrator: `_run_target` (codexup.py lines 359-481)

The filesystem facts `_run_target` consults are bundled in `TargetFS`;
the external agent's behaviour is supplied as the attempt list for
`run_codex`, the run id stands for the `uuid.uuid4().hex` draw, and
`sessionLines` is the content of the session file found by
`find_session_file_by_marker` (`none` when no session file was found,
making `_run_target` use its inline all-`None` token dict, which
coincides with `parse_token_usage_from_session` on a missing file). -/

/-- The metrics record `_run_target` writes — the fields the claims are
about (`function`, `proof_dir`, `log_path`, `session_path` are
path/name strings derived from the target and are omitted). -/
structure Metrics where
  run_id : Option Nat
  success : Bool
  exit_code : Int
  duration_sec : ℚ
  compile_success : Bool
  tokens : TokenUsageOut
  costs : CostsOut
  coverage : CovOut
  verification : Option Nat
  preflight_error : Option (List Char)
deriving DecidableEq

/-- The filesystem state `_run_target` observes for one target. -/
structure TargetFS where
  targetFileExists : Bool
  coverageArtifact : CovArtifact
  verificationArtifact : VerifArtifact
deriving DecidableEq

/-- Outcome of `_run_target`: preflight rejection (metrics written, agent
never launched), an uncaught exception (e.g. a failed placeholder
substitution — nothing written), a usage-limit loop that outlived the
supplied attempt list, or normal completion. -/
inductive RunTargetResult
  | rejected (m : Metrics)
  | crashed
  | limitedForever (trace : RunCodexTrace)
  | completed (trace : RunCodexTrace) (m : Metrics)
deriving DecidableEq

/-- Python `os.path.exists(coverage_path)` for `compile_success`: true
iff the coverage artifact file is present (even if unparseable). -/
def covFileExists : CovArtifact → Bool
  | .missing => false
  | _ => true

/-- Conversion of the parsed token dict to the counts `estimate_cost`
reads (`Optional[int]` per its signature).  A count that is neither
`None` nor an `int` would make Python's `count / 1_000_000.0` raise; no
claim exercises that case and it is mapped to `none` here. -/
def pyToCount : PyVal → Option Int
  | .vint n => some n
  | _ => none

/-- `TokenUsageOut` → `TokensIn` for the `estimate_cost` call. -/
def toTokensIn (t : TokenUsageOut) : TokensIn :=
  ⟨pyToCount t.input_tokens, pyToCount t.cached_tokens,
   pyToCount t.output_tokens, pyToCount t.reasoning_tokens⟩

/-- The preflight error message (its tail names the concrete path). -/
def preflightMessage : List Char := "Target file does not exist".data

/-- `_run_target` (codexup.py lines 359-481), non-dry-run path.  The
preflight check runs first: a missing target file short-circuits to a
rejection record with `exit_code = 1` whose coverage/verification entries
are read from the proof directory.  Otherwise the prompt is rendered
(raising on an unresolved placeholder), the agent runs under the freshly
drawn `runId`, and one completion record is written. -/
def run_target (fs : TargetFS) (pricing : Option Pricing)
    (template : List Char) (ctx : List Char → Option (List Char))
    (use_examples : Bool) (runId : Nat) (attempts : List AttemptSpec)
    (sessionLines : Option (List SessionLine)) : RunTargetResult :=
  if fs.targetFileExists = false then
    .rejected
      { run_id := none
        success := false
        exit_code := 1
        duration_sec := 0
        compile_success := false
        tokens := noneTokensOut
        costs := estimate_cost noneTokensIn pricing
        coverage := read_coverage_metrics fs.coverageArtifact
        verification := read_verification_results fs.verificationArtifact
        preflight_error := some preflightMessage }
  else
    match render_prompt template ctx use_examples with
    | none => .crashed
    | some _prompt =>
      let trace := run_codex runId attempts
      match trace.result with
      | none => .limitedForever trace
      | some (exitCode, duration) =>
        let tokens := parse_token_usage_from_session sessionLines
        .completed trace
          { run_id := some runId
            success := exitCode == 0
            exit_code := exitCode
            duration_sec := duration
            compile_success := covFileExists fs.coverageArtifact
            tokens := tokens
            costs := estimate_cost (toTokensIn tokens) pricing
            coverage := read_coverage_metrics fs.coverageArtifact
            verification := read_verification_results fs.verificationArtifact
            preflight_error := none }

/-- Number of times `_run_target` launched the agent subprocess. -/
def agentInvocations : RunTargetResult → Nat
  | .rejected _ => 0
  | .crashed => 0
  | .limitedForever t => t.invocations.length
  | .completed t _ => t.invocations.length

/-- The metrics records `_run_target` appended via `write_metrics`. -/
def metricsWritten : RunTargetResult → List Metrics
  | .rejected m => [m]
  | .crashed => []
  | .limitedForever _ => []
  | .completed _ m => [m]

/-! ## Auxiliary predicates and specification helpers -/

/-- `isinstance(v, int)`. -/
def PyVal.isInt : PyVal → Bool
  | .vint _ => true
  | _ => false

/-- "Does not decrease" on optional cost totals: `none` stays `none`,
a present total does not shrink. -/
def costLE : Option ℚ → Option ℚ → Prop
  | none, none => True
  | some a, some b => a ≤ b
  | _, _ => False

/-- Pointwise relation between per-category costs of two pricing tables:
same definedness, and the cost does not decrease. -/
def costR (a b : Option ℚ) : Prop :=
  (a = none ∧ b = none) ∨ ∃ x y, a = some x ∧ b = some y ∧ x ≤ y

/-- All four component counts of a token record are non-negative when
present. -/
def nonnegCounts (t : TokensIn) : Prop :=
  (∀ n, t.input_tokens = some n → 0 ≤ n) ∧
  (∀ n, t.cached_tokens = some n → 0 ≤ n) ∧
  (∀ n, t.output_tokens = some n → 0 ≤ n) ∧
  (∀ n, t.reasoning_tokens = some n → 0 ≤ n)

/-- Number of line entries under one function entry (0 when the value is
not a dict) — specification helper for coverage accounting. -/
def linesTotal : LinesVal → Nat
  | .notDict => 0
  | .lines es => es.length

/-- Number of line entries under one file entry — specification helper. -/
def funcsTotal : FuncsVal → Nat
  | .notDict => 0
  | .funcs fs => (fs.map (fun f => linesTotal f.2)).sum

/-- Total number of line entries of the whole coverage map, harness
files included — the quantity a consistent report's `overall.total`
carries.  Specification helper, not a function of the source. -/
def allLineCount : CoverageVal → Nat
  | .notDict => 0
  | .dict files => (files.map (fun f => funcsTotal f.2)).sum

/-- The coverage map with every harness-suffixed file removed —
specification helper used to state that the recomputation ignores
harness files. -/
def filterHarness : CoverageVal → CoverageVal
  | .notDict => .notDict
  | .dict files => .dict (files.filter (fun f => !(harnessSuffix.isSuffixOf f.1)))

/-- The pattern `pat` occurs in `t` at position `k`. -/
def patAt (pat t : List Char) (k : Nat) : Prop :=
  ∃ s, t.drop k = pat ++ s

/-! ## Sample inputs used by concrete counterexamples and witnesses -/

/-- A parseable coverage report whose own `overall_coverage.total` (0) is
inconsistent with its coverage map (one non-harness line). -/
def covReportInconsistent : CoverageReport :=
  ⟨.vint 0, .vint 0, .vother,
   .dict [("m.c".data, .funcs [("f".data, .lines [("1".data, "hit".data)])])]⟩

/-- A parseable coverage report left over in a proof directory: one file,
one function, one hit line, consistent summary. -/
def covReportStale : CoverageReport :=
  ⟨.vint 1, .vint 1, .vother,
   .dict [("a.c".data, .funcs [("f".data, .lines [("7".data, "hit".data)])])]⟩

/-- Filesystem state of a target whose source file is missing while a
stale coverage artifact is still present in its proof directory. -/
def fsStaleCoverage : TargetFS := ⟨false, .parsed covReportStale, .missing⟩

/-- A parseable coverage report whose summary is consistent with its
map: two files (one of them a harness), one line each. -/
def covReportConsistent : CoverageReport :=
  ⟨.vint 2, .vint 2, .vother,
   .dict [("a.c".data, .funcs [("f".data, .lines [("1".data, "hit".data)])]),
          ("b_harness.c".data, .funcs [("g".data, .lines [("2".data, "hit".data)])])]⟩

/-- A template with two `Examples` sections. -/
def templateTwoExamples : List Char :=
  "[Examples]\na\n[B]\nx\n[Examples]\nb\n[C]\ny".data

/-- A template with a single `Examples` section and no placeholders. -/
def templateOneExamples : List Char :=
  "[Intro]\nhello\n[Examples]\nex\n".data

/-- A placeholder mapping binding only the key `X`. -/
def ctxSample : List Char → Option (List Char) :=
  fun k => if k = ("X".data) then some ("42".data) else none

/-! ## Helper lemmas about the runner loop -/

/-- If no line of the attempt produced a parsed `resets_in_seconds`,
`usage_limit_wait` is still `None` at the end of the attempt. -/
theorem scanUsageLimit_eq_none (lines : List OutputLine)
    (h : ∀ l ∈ lines, l.parsedResets = none) : scanUsageLimit lines = none := by
  unfold scanUsageLimit
  induction lines with
  | nil => rfl
  | cons l ls ih =>
    have hl : l.parsedResets = none := h l (List.mem_cons_self l ls)
    have hstep :
        (if l.hasUsageLimitSignal then
          match l.parsedResets with
          | some r => some r
          | none => (none : Option Int)
        else none) = none := by
      rw [hl]; cases l.hasUsageLimitSignal <;> rfl
    rw [List.foldl_cons, hstep]
    exact ih (fun x hx => h x (List.mem_cons_of_mem l hx))

/-- Every invocation recorded by the retry loop carries the run id that
was fixed before the loop started. -/
theorem runCodexGo_snd_eq (runId : Nat) (attempts : List AttemptSpec) (n : Nat)
    (p : Nat × Nat) (hp : p ∈ (runCodexGo runId attempts n).invocations) :
    p.2 = runId := by
  induction attempts generalizing n with
  | nil => simp [runCodexGo] at hp
  | cons a rest ih =>
    rw [runCodexGo] at hp
    cases hscan : scanUsageLimit a.lines with
    | none =>
      rw [hscan] at hp
      simp at hp
      rw [hp]
    | some w =>
      rw [hscan] at hp
      simp at hp
      rcases hp with hp | hp
      · rw [hp]
      · exact ih (n + 1) hp

/-- C1.  The claim asserts that when a usage-limit signal is observed but
no `resets_in_seconds` integer could be parsed from the attempt's output,
`run_codex` sleeps for a fixed fallback and retries.  It is false: with
one attempt whose single output line carries the signal but no parseable
payload, the loop performs zero sleeps, launches no second attempt, and
returns the attempt's exit code 3. -/
theorem C1_counterexample :
    (run_codex 9 [⟨[⟨true, none⟩], 3, 0⟩]).sleeps = [] ∧
    (run_codex 9 [⟨[⟨true, none⟩], 3, 0⟩]).invocations.length = 1 ∧
    (run_codex 9 [⟨[⟨true, none⟩], 3, 0⟩]).result = some (3, 0) := by
  decide

/-- C1 (amended).  If a usage-limit signal was observed on the attempt's
output but no `resets_in_seconds` integer was parsed from any of its
lines, `run_codex` does not sleep and does not retry: it behaves exactly
as if no usage limit had been seen, returning that attempt's exit code
and duration after a single invocation. -/
theorem C1_unparsed_reset_returns_exit_code (runId : Nat)
    (lines : List OutputLine) (ec : Int) (d : ℚ) (rest : List AttemptSpec)
    (_hsig : ∃ l ∈ lines, l.hasUsageLimitSignal = true)
    (hnone : ∀ l ∈ lines, l.parsedResets = none) :
    run_codex runId (⟨lines, ec, d⟩ :: rest) = ⟨[(1, runId)], [], some (ec, d)⟩ := by
  unfold run_codex
  rw [runCodexGo, scanUsageLimit_eq_none lines hnone]

/-- C1 witness: the amended theorem applied at a concrete attempt whose
output signals a usage limit with an unparseable payload. -/
theorem C1_witness :
    (∃ l ∈ [OutputLine.mk true none], l.hasUsageLimitSignal = true) ∧
    run_codex 4 [⟨[⟨true, none⟩], 7, 2⟩] = ⟨[(1, 4)], [], some (7, 2)⟩ :=
  ⟨by decide,
   C1_unparsed_reset_returns_exit_code 4 [⟨true, none⟩] 7 2 []
     (by decide) (by decide)⟩

/-- C2.  The claim asserts that every physical agent invocation,
including retries after a usage-limit backoff, gets a distinct fresh
correlation id.  It is false: the id is drawn once per target, before
`run_codex`, and the retry loop reuses the same prompt.  With a first
attempt that hits a parsed usage limit and a clean second attempt, both
invocations carry the id 7. -/
theorem C2_counterexample :
    (run_codex 7 [⟨[⟨true, some 10⟩], 1, 0⟩, ⟨[], 0, 0⟩]).invocations =
      [(1, 7), (2, 7)] ∧
    ¬ ((run_codex 7 [⟨[⟨true, some 10⟩], 1, 0⟩, ⟨[], 0, 0⟩]).invocations.map
        Prod.snd).Nodup := by
  decide

/-- C2 (amended).  The correlation id is freshly generated once per
target, before the first attempt; every physical invocation of the same
target — including every retry after a usage-limit backoff — is tagged
with that same id. -/
theorem C2_attempts_share_run_id (runId : Nat) (attempts : List AttemptSpec)
    (p : Nat × Nat) (hp : p ∈ (run_codex runId attempts).invocations) :
    p.2 = runId :=
  runCodexGo_snd_eq runId attempts 1 p hp

/-- C2 witness: the amended theorem applied to a concrete one-attempt
run. -/
theorem C2_witness :
    (1, 5) ∈ (run_codex 5 [⟨[], 0, 0⟩]).invocations ∧
    ((1, 5) : Nat × Nat).2 = 5 :=
  ⟨by decide, C2_attempts_share_run_id 5 [⟨[], 0, 0⟩] (1, 5) (by decide)⟩

/-- C3.  For a session whose last token record has all four component
counts as ints with `cached ≤ input`, the extractor returns
`input_tokens = raw - cached` and recomputes
`total_tokens = input_tokens + cached + output + reasoning`. -/
theorem C3_token_normalization (ls : List SessionLine) (t : TotalTokenUsage)
    (r c o g : Int) (ht : lastTotal ls = some t)
    (hr : t.input_tokens = .vint r) (hc : t.cached_input_tokens = .vint c)
    (ho : t.output_tokens = .vint o) (hg : t.reasoning_output_tokens = .vint g)
    (hle : c ≤ r) :
    (parse_token_usage_from_session (some ls)).input_tokens = .vint (r - c) ∧
    (parse_token_usage_from_session (some ls)).total_tokens =
      .vint ((r - c) + c + o + g) := by
  simp only [parse_token_usage_from_session]
  rw [ht]
  simp [hr, hc, ho, hg, hle]

/-- C3 witness: a session with a junk line and one token record
`(input 10, cached 4, output 5, reasoning 6)`. -/
theorem C3_witness :
    lastTotal [.junk, .tokenCount ⟨.vint 10, .vint 4, .vint 5, .vint 6, .vother⟩] =
      some ⟨.vint 10, .vint 4, .vint 5, .vint 6, .vother⟩ ∧
    (4 : Int) ≤ 10 ∧
    (parse_token_usage_from_session
        (some [.junk, .tokenCount ⟨.vint 10, .vint 4, .vint 5, .vint 6, .vother⟩])).input_tokens =
      .vint 6 ∧
    (parse_token_usage_from_session
        (some [.junk, .tokenCount ⟨.vint 10, .vint 4, .vint 5, .vint 6, .vother⟩])).total_tokens =
      .vint 21 :=
  have h := C3_token_normalization
    [.junk, .tokenCount ⟨.vint 10, .vint 4, .vint 5, .vint 6, .vother⟩]
    ⟨.vint 10, .vint 4, .vint 5, .vint 6, .vother⟩ 10 4 5 6
    rfl rfl rfl rfl rfl (by decide)
  ⟨by decide, by decide, h.1, h.2⟩

/-- C10.  The cached-overlap subtraction is conditional: when the last
record's cached count exceeds its raw input count (both ints), the raw
input is returned unsubtracted while the total is still recomputed as
`input + cached + output + reasoning` when output and reasoning are also
ints; and when the raw input or the cached count is not an int, the raw
input value is passed through unchanged. -/
theorem C10_conditional_subtraction (ls : List SessionLine)
    (t : TotalTokenUsage) (ht : lastTotal ls = some t) :
    (∀ r c, t.input_tokens = .vint r → t.cached_input_tokens = .vint c →
      r < c →
      (parse_token_usage_from_session (some ls)).input_tokens = .vint r ∧
      ∀ o g, t.output_tokens = .vint o → t.reasoning_output_tokens = .vint g →
        (parse_token_usage_from_session (some ls)).total_tokens =
          .vint (r + c + o + g)) ∧
    ((t.input_tokens.isInt = false ∨ t.cached_input_tokens.isInt = false) →
      (parse_token_usage_from_session (some ls)).input_tokens =
        t.input_tokens) := by
  constructor
  · intro r c hr hc hlt
    have hnle : ¬ (c ≤ r) := by omega
    constructor
    · simp only [parse_token_usage_from_session]
      rw [ht]
      simp [hr, hc, hnle]
    · intro o g ho hg
      simp only [parse_token_usage_from_session]
      rw [ht]
      simp [hr, hc, ho, hg, hnle]
  · intro hni
    simp only [parse_token_usage_from_session]
    rw [ht]
    rcases hni with h | h <;>
      cases hi : t.input_tokens <;> cases hc2 : t.cached_input_tokens <;>
        simp [PyVal.isInt, hi, hc2] at h ⊢

/-- C10 witness: a record with `cached (5) > input (3)`; the raw input 3
is returned and the total is recomputed as `3 + 5 + 2 + 1 = 11`. -/
theorem C10_witness :
    lastTotal [.tokenCount ⟨.vint 3, .vint 5, .vint 2, .vint 1, .vnone⟩] =
      some ⟨.vint 3, .vint 5, .vint 2, .vint 1, .vnone⟩ ∧
    (parse_token_usage_from_session
        (some [.tokenCount ⟨.vint 3, .vint 5, .vint 2, .vint 1, .vnone⟩])).input_tokens =
      .vint 3 ∧
    (parse_token_usage_from_session
        (some [.tokenCount ⟨.vint 3, .vint 5, .vint 2, .vint 1, .vnone⟩])).total_tokens =
      .vint 11 :=
  have h := C10_conditional_subtraction
    [.tokenCount ⟨.vint 3, .vint 5, .vint 2, .vint 1, .vnone⟩]
    ⟨.vint 3, .vint 5, .vint 2, .vint 1, .vnone⟩ rfl
  ⟨rfl, (h.1 3 5 rfl rfl (by decide)).1,
   (h.1 3 5 rfl rfl (by decide)).2 2 1 rfl rfl⟩

/-- C6.  The claim asserts that a missing or non-list `"false"` entry in
an otherwise parseable report yields an absent/unknown `error_count`.
It is false: the code replaces such an entry by `[]`, so `error_count`
is `0`, not `None`. -/
theorem C6_counterexample :
    read_verification_results (.parsed (some .notList)) = some 0 ∧
    read_verification_results (.parsed none) = some 0 ∧
    (some 0 : Option Nat) ≠ none := by
  decide

/-- C6 (amended).  `error_count` is the length of the `"false"` list when
it is present and a list; a missing or non-list entry in a parseable
report yields `error_count = 0`; only a missing or unparseable report
file yields unknown (`None`). -/
theorem C6_error_count_behavior :
    (∀ n, read_verification_results (.parsed (some (.list n))) = some n) ∧
    read_verification_results (.parsed (some .notList)) = some 0 ∧
    read_verification_results (.parsed none) = some 0 ∧
    read_verification_results .missing = none ∧
    read_verification_results .unparseable = none :=
  ⟨fun _ => rfl, rfl, rfl, rfl, rfl⟩

/-- The cost estimate of the all-`None` token dict is all-`None` for
every pricing table. -/
theorem estimate_cost_none_tokens (pricing : Option Pricing) :
    estimate_cost noneTokensIn pricing = noneCostsOut := by
  cases pricing <;> rfl

/-- C5.  The claim asserts that a preflight-rejected target's metrics
record has all coverage fields absent.  It is false: the record re-reads
the proof directory, so a stale parseable coverage artifact populates
`coverage.overall` even though the agent was never invoked. -/
theorem C5_counterexample :
    fsStaleCoverage.targetFileExists = false ∧
    ((metricsWritten
        (run_target fsStaleCoverage none [] (fun _ => none) false 0 [] none)).map
      (fun m => m.coverage.overall.isSome)) = [true] := by
  constructor
  · rfl
  · rfl

/-- C5 (amended).  For a target whose source file does not exist, the
orchestrator launches no agent subprocess and writes exactly one metrics
record with `success = false`, `exit_code = 1`, zero duration,
`compile_success = false`, `preflight_error` populated, and all token and
cost fields `None`; the coverage and verification fields are re-read from
the proof directory, hence `None` exactly when no readable artifacts are
present there (stale artifacts are reported). -/
theorem C5_preflight_short_circuit (fs : TargetFS) (pricing : Option Pricing)
    (template : List Char) (ctx : List Char → Option (List Char)) (ue : Bool)
    (runId : Nat) (attempts : List AttemptSpec)
    (sess : Option (List SessionLine)) (h : fs.targetFileExists = false) :
    agentInvocations (run_target fs pricing template ctx ue runId attempts sess) = 0 ∧
    ∃ m, metricsWritten (run_target fs pricing template ctx ue runId attempts sess) = [m] ∧
      m.success = false ∧ m.exit_code = 1 ∧ m.duration_sec = 0 ∧
      m.compile_success = false ∧ m.preflight_error = some preflightMessage ∧
      m.tokens = noneTokensOut ∧ m.costs = noneCostsOut ∧
      m.coverage = read_coverage_metrics fs.coverageArtifact ∧
      m.verification = read_verification_results fs.verificationArtifact ∧
      (fs.coverageArtifact = .missing → m.coverage = ⟨none, none⟩) ∧
      (fs.verificationArtifact = .missing → m.verification = none) := by
  have hrun : run_target fs pricing template ctx ue runId attempts sess =
      RunTargetResult.rejected
        { run_id := none, success := false, exit_code := 1, duration_sec := 0,
          compile_success := false, tokens := noneTokensOut,
          costs := estimate_cost noneTokensIn pricing,
          coverage := read_coverage_metrics fs.coverageArtifact,
          verification := read_verification_results fs.verificationArtifact,
          preflight_error := some preflightMessage } := by
    unfold run_target
    rw [h]
    rfl
  rw [hrun]
  exact ⟨rfl, _, rfl, rfl, rfl, rfl, rfl, rfl, rfl,
    estimate_cost_none_tokens pricing, rfl, rfl,
    fun hc => by rw [hc]; rfl, fun hv => by rw [hv]; rfl⟩

/-- C5 witness: the amended theorem applied to a target with a missing
source file and an empty proof directory. -/
theorem C5_witness :
    (TargetFS.mk false .missing .missing).targetFileExists = false ∧
    (agentInvocations (run_target ⟨false, .missing, .missing⟩ none []
        (fun _ => none) false 0 [] none) = 0 ∧
     ∃ m, metricsWritten (run_target ⟨false, .missing, .missing⟩ none []
        (fun _ => none) false 0 [] none) = [m] ∧
      m.success = false ∧ m.exit_code = 1 ∧ m.duration_sec = 0 ∧
      m.compile_success = false ∧ m.preflight_error = some preflightMessage ∧
      m.tokens = noneTokensOut ∧ m.costs = noneCostsOut ∧
      m.coverage = read_coverage_metrics (TargetFS.mk false .missing .missing).coverageArtifact ∧
      m.verification = read_verification_results (TargetFS.mk false .missing .missing).verificationArtifact ∧
      ((TargetFS.mk false .missing .missing).coverageArtifact = .missing →
        m.coverage = ⟨none, none⟩) ∧
      ((TargetFS.mk false .missing .missing).verificationArtifact = .missing →
        m.verification = none)) :=
  ⟨rfl, C5_preflight_short_circuit ⟨false, .missing, .missing⟩ none []
    (fun _ => none) false 0 [] none rfl⟩

/-- `costR` is reflexive. -/
theorem costR_refl (a : Option ℚ) : costR a a := by
  cases a with
  | none => exact Or.inl ⟨rfl, rfl⟩
  | some x => exact Or.inr ⟨x, x, rfl, rfl, le_rfl⟩

/-- Raising a configured rate does not decrease a category's cost. -/
theorem costOfKey_mono (count : Option Int) (r1 r2 : ℚ)
    (hnn : ∀ n, count = some n → 0 ≤ n) (hr : r1 ≤ r2) :
    costR (costOfKey count (some r1)) (costOfKey count (some r2)) := by
  cases count with
  | none => exact Or.inl ⟨rfl, rfl⟩
  | some n =>
    refine Or.inr ⟨(n : ℚ) / 1000000 * r1, (n : ℚ) / 1000000 * r2, rfl, rfl, ?_⟩
    have hn : (0 : ℚ) ≤ (n : ℚ) / 1000000 := by
      have := hnn n rfl
      positivity
    exact mul_le_mul_of_nonneg_left hr hn

/-- Folding the `total_cost` loop over pointwise-`costR` cost lists keeps
the `any_cost` flags equal and does not decrease the running total. -/
theorem totalFold_mono (xs ys : List (Option ℚ)) (hR : List.Forall₂ costR xs ys) :
    ∀ (s1 s2 : ℚ) (b : Bool), s1 ≤ s2 →
      (xs.foldl totalStep (s1, b)).1 ≤ (ys.foldl totalStep (s2, b)).1 ∧
      (xs.foldl totalStep (s1, b)).2 = (ys.foldl totalStep (s2, b)).2 := by
  induction hR with
  | nil => exact fun s1 s2 b hs => ⟨hs, rfl⟩
  | cons hab htl ih =>
    intro s1 s2 b hs
    rcases hab with ⟨ha, hb⟩ | ⟨x, y, ha, hb, hxy⟩
    · rw [ha, hb]
      exact ih s1 s2 b hs
    · rw [ha, hb]
      simp only [List.foldl_cons, totalStep]
      exact ih (s1 + x) (s2 + y) true (add_le_add hs hxy)

/-- C7.  Increasing any single configured per-million rate, with all
token counts non-negative and every other rate unchanged, never
decreases the estimated `total_cost` (and cannot change whether a total
exists at all). -/
theorem C7_cost_monotone (t : TokensIn) (p q : Pricing) (k : CostKey)
    (r1 r2 : ℚ) (hnn : nonnegCounts t) (hp : p k = some r1)
    (hq : q k = some r2) (hr : r1 ≤ r2)
    (hagree : ∀ k2, k2 ≠ k → p k2 = q k2) :
    costLE (estimate_cost t (some p)).total_cost
      (estimate_cost t (some q)).total_cost := by
  obtain ⟨h1, h2, h3, h4⟩ := hnn
  have hR : List.Forall₂ costR
      [costOfKey t.input_tokens (p .input), costOfKey t.output_tokens (p .output),
       costOfKey t.cached_tokens (p .cached),
       costOfKey t.reasoning_tokens (p .reasoning)]
      [costOfKey t.input_tokens (q .input), costOfKey t.output_tokens (q .output),
       costOfKey t.cached_tokens (q .cached),
       costOfKey t.reasoning_tokens (q .reasoning)] := by
    cases k with
    | input =>
      refine .cons ?_ (.cons ?_ (.cons ?_ (.cons ?_ .nil)))
      · rw [hp, hq]; exact costOfKey_mono _ _ _ h1 hr
      · rw [hagree .output (by simp)]; exact costR_refl _
      · rw [hagree .cached (by simp)]; exact costR_refl _
      · rw [hagree .reasoning (by simp)]; exact costR_refl _
    | output =>
      refine .cons ?_ (.cons ?_ (.cons ?_ (.cons ?_ .nil)))
      · rw [hagree .input (by simp)]; exact costR_refl _
      · rw [hp, hq]; exact costOfKey_mono _ _ _ h3 hr
      · rw [hagree .cached (by simp)]; exact costR_refl _
      · rw [hagree .reasoning (by simp)]; exact costR_refl _
    | cached =>
      refine .cons ?_ (.cons ?_ (.cons ?_ (.cons ?_ .nil)))
      · rw [hagree .input (by simp)]; exact costR_refl _
      · rw [hagree .output (by simp)]; exact costR_refl _
      · rw [hp, hq]; exact costOfKey_mono _ _ _ h2 hr
      · rw [hagree .reasoning (by simp)]; exact costR_refl _
    | reasoning =>
      refine .cons ?_ (.cons ?_ (.cons ?_ (.cons ?_ .nil)))
      · rw [hagree .input (by simp)]; exact costR_refl _
      · rw [hagree .output (by simp)]; exact costR_refl _
      · rw [hagree .cached (by simp)]; exact costR_refl _
      · rw [hp, hq]; exact costOfKey_mono _ _ _ h4 hr
  obtain ⟨hle, hbeq⟩ := totalFold_mono _ _ hR 0 0 false le_rfl
  simp only [estimate_cost]
  rw [hbeq]
  cases hb : ([costOfKey t.input_tokens (q .input),
      costOfKey t.output_tokens (q .output), costOfKey t.cached_tokens (q .cached),
      costOfKey t.reasoning_tokens (q .reasoning)].foldl totalStep (0, false)).2 with
  | false => exact trivial
  | true => exact hle

/-- C7 witness: all counts one million, input rate raised from 1 to 2,
other rates 1. -/
theorem C7_witness :
    costLE (estimate_cost ⟨some 1000000, some 1000000, some 1000000, some 1000000⟩
        (some (fun _ => some 1))).total_cost
      (estimate_cost ⟨some 1000000, some 1000000, some 1000000, some 1000000⟩
        (some (fun k => match k with | .input => some 2 | _ => some 1))).total_cost :=
  C7_cost_monotone ⟨some 1000000, some 1000000, some 1000000, some 1000000⟩
    (fun _ => some 1) (fun k => match k with | .input => some 2 | _ => some 1)
    .input 1 2
    ⟨fun n hn => by simp at hn; omega, fun n hn => by simp at hn; omega,
     fun n hn => by simp at hn; omega, fun n hn => by simp at hn; omega⟩
    rfl rfl (by norm_num)
    (fun k2 hk2 => by cases k2 <;> first | rfl | exact absurd rfl hk2)

/-- The inner line loop adds exactly the number of entries to the total
counter. -/
theorem lineFold_total (es : List (List Char × List Char)) :
    ∀ acc : Nat × Nat, (lineFold acc es).2 = acc.2 + es.length := by
  induction es with
  | nil => intro acc; rfl
  | cons e es ih =>
    intro acc
    have h := ih (lineStep acc e)
    simp only [lineFold, List.foldl_cons] at h ⊢
    rw [h]
    simp [lineStep]
    omega

/-- The middle function loop adds exactly the per-file line count to the
total counter. -/
theorem funcFold_total (fs : List (List Char × LinesVal)) :
    ∀ acc : Nat × Nat, (funcFold acc fs).2 = acc.2 + funcsTotal (.funcs fs) := by
  induction fs with
  | nil => intro acc; simp [funcFold, funcsTotal]
  | cons f fs ih =>
    intro acc
    have h := ih (funcStep acc f)
    simp only [funcFold, List.foldl_cons] at h ⊢
    rw [h]
    have hstep : (funcStep acc f).2 = acc.2 + linesTotal f.2 := by
      cases hf : f.2 with
      | notDict => simp [funcStep, hf, linesTotal]
      | lines es => simp [funcStep, hf, linesTotal, lineFold_total]
    rw [hstep]
    simp [funcsTotal]
    omega

/-- The outer file loop adds, per file, its line count or zero when the
file is harness-suffixed or malformed. -/
theorem filesFold_total (files : List (List Char × FuncsVal)) :
    ∀ acc : Nat × Nat,
      (files.foldl fileStep acc).2 =
        acc.2 + (files.map (fun f =>
          if harnessSuffix.isSuffixOf f.1 then 0 else funcsTotal f.2)).sum := by
  induction files with
  | nil => intro acc; simp
  | cons f files ih =>
    intro acc
    rw [List.foldl_cons, ih (fileStep acc f)]
    have hstep : (fileStep acc f).2 =
        acc.2 + (if harnessSuffix.isSuffixOf f.1 then 0 else funcsTotal f.2) := by
      cases hh : harnessSuffix.isSuffixOf f.1 with
      | true => simp [fileStep, hh]
      | false =>
        cases hf : f.2 with
        | notDict => simp [fileStep, hh, hf, funcsTotal]
        | funcs fs => simp [fileStep, hh, hf, funcFold_total]
    rw [hstep]
    simp
    omega

/-- Skipped harness files contribute nothing: the file loop is unchanged
by removing them up front. -/
theorem filesFold_filter (files : List (List Char × FuncsVal)) :
    ∀ acc : Nat × Nat,
      files.foldl fileStep acc =
        (files.filter (fun f => !(harnessSuffix.isSuffixOf f.1))).foldl
          fileStep acc := by
  induction files with
  | nil => intro acc; rfl
  | cons f files ih =>
    intro acc
    cases hh : harnessSuffix.isSuffixOf f.1 with
    | true =>
      have hstep : fileStep acc f = acc := by simp [fileStep, hh]
      simp only [List.foldl_cons, List.filter_cons, hh, hstep]
      exact ih acc
    | false =>
      simp only [List.foldl_cons, List.filter_cons, hh]
      exact ih (fileStep acc f)

/-- C4.  The claim asserts `non_harness.total ≤ overall.total` for every
parseable report.  It is false: `overall` is passed through verbatim, so
a report whose summary (`total = 0`) disagrees with its map (one
non-harness line) yields `non_harness.total = 1 > 0 = overall.total`. -/
theorem C4_counterexample :
    ((read_coverage_metrics (.parsed covReportInconsistent)).overall.map
      (fun o => o.total)) = some (.vint 0) ∧
    ((read_coverage_metrics (.parsed covReportInconsistent)).non_harness.map
      (fun nh => nh.total)) = some 1 ∧
    ¬ ((1 : Int) ≤ 0) := by
  refine ⟨rfl, rfl, by decide⟩

/-- C4 (amended).  The recomputed `non_harness` figures exclude every
file whose path ends in the harness suffix and count a line as hit
exactly when its lower-cased status is one of `hit`, `covered`, `1`,
`true`; `non_harness.total` is bounded by the total line count of the
coverage map, hence `non_harness.total ≤ overall.total` whenever the
report's verbatim `overall.total` equals that count — but not for
reports whose summary disagrees with their map. -/
theorem C4_coverage_recomputation (r : CoverageReport) (nh : NonHarnessOut)
    (h : (read_coverage_metrics (.parsed r)).non_harness = some nh) :
    nh.hit = (nonHarnessCounts (filterHarness r.coverage)).1 ∧
    nh.total = (nonHarnessCounts (filterHarness r.coverage)).2 ∧
    nh.total ≤ allLineCount r.coverage ∧
    (∀ s, isHit s = true ↔
      s.map Char.toLower ∈
        [("hit".data), ("covered".data), ("1".data), ("true".data)]) ∧
    (∀ n : Int, r.overall_total = .vint n → n = (allLineCount r.coverage : Int) →
      (nh.total : Int) ≤ n) := by
  have hfix : nonHarnessCounts r.coverage = nonHarnessCounts (filterHarness r.coverage) := by
    cases hc : r.coverage with
    | notDict => rfl
    | dict files =>
      simp only [nonHarnessCounts, filterHarness]
      exact filesFold_filter files (0, 0)
  have hnh : nh = ⟨(nonHarnessCounts r.coverage).1, (nonHarnessCounts r.coverage).2,
      if (nonHarnessCounts r.coverage).2 = 0 then none
      else some (((nonHarnessCounts r.coverage).1 : ℚ) / ((nonHarnessCounts r.coverage).2 : ℚ))⟩ := by
    simp only [read_coverage_metrics] at h
    exact ((Option.some.injEq _ _).mp h).symm
  have hle : (nonHarnessCounts r.coverage).2 ≤ allLineCount r.coverage := by
    cases hc : r.coverage with
    | notDict => simp [nonHarnessCounts, allLineCount]
    | dict files =>
      simp only [nonHarnessCounts, allLineCount]
      rw [filesFold_total files (0, 0)]
      simp only [Nat.zero_add]
      exact List.sum_le_sum (fun f _ => by
        cases hh : harnessSuffix.isSuffixOf f.1 <;> simp [hh])
  refine ⟨by rw [hnh, hfix], by rw [hnh, hfix], by rw [hnh]; exact hle, ?_, ?_⟩
  · intro s
    simp only [isHit, Bool.or_eq_true, beq_iff_eq, List.mem_cons,
      List.mem_singleton, List.not_mem_nil, or_false]
    tauto
  · intro n hodd hn
    rw [hnh]
    simp only
    omega

/-- C4 witness: the amended theorem applied to a consistent two-file
report (one harness file); `non_harness.total = 1 ≤ 2 = overall.total`. -/
theorem C4_witness :
    (read_coverage_metrics (.parsed covReportConsistent)).non_harness =
      some ⟨1, 1, some (((1 : Nat) : ℚ) / ((1 : Nat) : ℚ))⟩ ∧
    (1 : Nat) ≤ allLineCount covReportConsistent.coverage ∧
    ((1 : Nat) : Int) ≤ 2 :=
  have h := C4_coverage_recomputation covReportConsistent
    ⟨1, 1, some (((1 : Nat) : ℚ) / ((1 : Nat) : ℚ))⟩ rfl
  ⟨rfl, h.2.2.1, h.2.2.2.2 2 rfl (by decide)⟩

/-! ## String-matching lemmas for `remove_section` -/

/-- Soundness and minimality of `findSufIdx` on success. -/
theorem findSufIdx_some_spec (p : List Char → Bool) (l : List Char) (i : Nat)
    (h : findSufIdx p l = some i) :
    p (l.drop i) = true ∧ ∀ k, k < i → p (l.drop k) = false := by
  induction l generalizing i with
  | nil =>
    unfold findSufIdx at h
    by_cases hp : p [] = true
    · rw [if_pos hp] at h
      cases h
      exact ⟨hp, fun k hk => absurd hk (by omega)⟩
    · rw [if_neg hp] at h
      cases h
  | cons c rest ih =>
    unfold findSufIdx at h
    cases hp : p (c :: rest) with
    | true =>
      rw [if_pos hp] at h
      cases h
      exact ⟨hp, fun k hk => absurd hk (by omega)⟩
    | false =>
      rw [if_neg (by rw [hp]; exact Bool.false_ne_true)] at h
      cases hrec : findSufIdx p rest with
      | none => rw [hrec] at h; cases h
      | some j =>
        rw [hrec] at h
        simp only [Option.map_some', Option.some.injEq] at h
        subst h
        obtain ⟨h1, h2⟩ := ih j hrec
        refine ⟨h1, ?_⟩
        intro k hk
        cases k with
        | zero => exact hp
        | succ k2 => exact h2 k2 (by omega)

/-- On failure, no suffix satisfies the predicate. -/
theorem findSufIdx_none_spec (p : List Char → Bool) :
    ∀ l, findSufIdx p l = none → ∀ k, p (l.drop k) = false := by
  intro l
  induction l with
  | nil =>
    intro h k
    unfold findSufIdx at h
    rw [List.drop_nil]
    cases hp : p [] with
    | true => rw [if_pos hp] at h; cases h
    | false => rfl
  | cons c rest ih =>
    intro h k
    unfold findSufIdx at h
    cases hp : p (c :: rest) with
    | true => rw [if_pos hp] at h; cases h
    | false =>
      rw [if_neg (by rw [hp]; exact Bool.false_ne_true)] at h
      cases hrec : findSufIdx p rest with
      | some j => rw [hrec] at h; cases h
      | none =>
        cases k with
        | zero => exact hp
        | succ k2 => exact ih hrec k2

/-- Converse: if no suffix satisfies the predicate, the search fails. -/
theorem findSufIdx_eq_none (p : List Char → Bool) (l : List Char)
    (h : ∀ k, p (l.drop k) = false) : findSufIdx p l = none := by
  cases hf : findSufIdx p l with
  | none => rfl
  | some i =>
    have h1 := (findSufIdx_some_spec p l i hf).1
    rw [h i] at h1
    cases h1

/-- `isPrefixOf` characterised by a suffix decomposition. -/
theorem isPrefixOf_iff_append (pat : List Char) :
    ∀ l, pat.isPrefixOf l = true ↔ ∃ s, l = pat ++ s := by
  induction pat with
  | nil =>
    intro l
    constructor
    · intro _; exact ⟨l, rfl⟩
    · intro _
      cases l with
      | nil => rfl
      | cons b bs => rfl
  | cons a as ih =>
    intro l
    cases l with
    | nil =>
      constructor
      · intro h; exact Bool.noConfusion h
      · rintro ⟨s, hs⟩; cases hs
    | cons b bs =>
      show (a == b && as.isPrefixOf bs) = true ↔ _
      rw [Bool.and_eq_true, beq_iff_eq, ih bs]
      constructor
      · rintro ⟨rfl, s, rfl⟩; exact ⟨s, rfl⟩
      · rintro ⟨s, hs⟩
        injection hs with h1 h2
        exact ⟨h1.symm, s, h2⟩

/-- An occurrence of a nonempty pattern fits inside the text. -/
theorem occ_le_length (pat t : List Char) (k : Nat) (hpat : pat ≠ [])
    (h : pat.isPrefixOf (t.drop k) = true) : k + pat.length ≤ t.length := by
  obtain ⟨s, hs⟩ := (isPrefixOf_iff_append pat _).mp h
  have hlen := congrArg List.length hs
  rw [List.length_drop, List.length_append] at hlen
  have hpos : 0 < pat.length := List.length_pos.mpr hpat
  omega

/-- When the pattern occurs at most once, any two occurrence positions
coincide. -/
theorem occ_unique (pat t : List Char) (hpat : pat ≠ [])
    (hocc : occCount pat t ≤ 1) (k1 k2 : Nat)
    (h1 : pat.isPrefixOf (t.drop k1) = true)
    (h2 : pat.isPrefixOf (t.drop k2) = true) : k1 = k2 := by
  unfold occCount at hocc
  have hpos : 0 < pat.length := List.length_pos.mpr hpat
  have hm1 : k1 ∈ (Finset.range (t.length + 1)).filter
      (fun i => pat.isPrefixOf (t.drop i) = true) := by
    refine Finset.mem_filter.mpr ⟨Finset.mem_range.mpr ?_, h1⟩
    have := occ_le_length pat t k1 hpat h1
    omega
  have hm2 : k2 ∈ (Finset.range (t.length + 1)).filter
      (fun i => pat.isPrefixOf (t.drop i) = true) := by
    refine Finset.mem_filter.mpr ⟨Finset.mem_range.mpr ?_, h2⟩
    have := occ_le_length pat t k2 hpat h2
    omega
  exact Finset.card_le_one.mp hocc k1 hm1 k2 hm2

/-- An occurrence inside `t.take i` is an occurrence in `t`, at a
position left of `i` when the pattern is nonempty. -/
theorem occ_take (pat t : List Char) (i k : Nat)
    (h : pat.isPrefixOf ((t.take i).drop k) = true) :
    pat.isPrefixOf (t.drop k) = true ∧ (pat ≠ [] → k < i) := by
  obtain ⟨s, hs⟩ := (isPrefixOf_iff_append pat _).mp h
  constructor
  · apply (isPrefixOf_iff_append pat _).mpr
    have hsplit : t.drop k =
        (t.take i).drop k ++ (t.drop i).drop (k - (t.take i).length) := by
      conv_lhs => rw [← List.take_append_drop i t]
      rw [List.drop_append_eq_append_drop]
    rw [hsplit, hs, List.append_assoc]
    exact ⟨s ++ (t.drop i).drop (k - (t.take i).length), rfl⟩
  · intro hpat
    have hne : (t.take i).drop k ≠ [] := by
      rw [hs]
      intro hx
      exact hpat (List.append_eq_nil.mp hx).1
    have hlen : k < (t.take i).length := by
      by_contra hk
      push_neg at hk
      rw [List.drop_eq_nil_of_le hk] at hne
      exact hne rfl
    have hti : (t.take i).length ≤ i := by
      rw [List.length_take]; omega
    omega

/-- An occurrence past the left part of an append is an occurrence in
the right part. -/
theorem occ_right (pat a b : List Char) (k : Nat) (hk : a.length ≤ k)
    (h : pat.isPrefixOf ((a ++ b).drop k) = true) :
    pat.isPrefixOf (b.drop (k - a.length)) = true := by
  rw [List.drop_append_eq_append_drop, List.drop_eq_nil_of_le hk,
    List.nil_append] at h
  exact h

/-- A newline-free pattern cannot straddle a seam whose right side
starts with a newline. -/
theorem no_cross (pat a tl : List Char) (k : Nat) (hnl : '\n' ∉ pat)
    (hk : k < a.length) (hlen : a.length < k + pat.length)
    (h : pat.isPrefixOf ((a ++ '\n' :: tl).drop k) = true) : False := by
  obtain ⟨s, hs⟩ := (isPrefixOf_iff_append pat _).mp h
  rw [List.drop_append_eq_append_drop] at hs
  have hk0 : k - a.length = 0 := by omega
  rw [hk0, List.drop_zero] at hs
  have hdrop := congrArg (List.drop (a.drop k).length) hs
  rw [List.drop_left] at hdrop
  rw [List.drop_append_eq_append_drop] at hdrop
  have hlt : (a.drop k).length < pat.length := by
    rw [List.length_drop]; omega
  have hsub0 : (a.drop k).length - pat.length = 0 := by omega
  rw [hsub0, List.drop_zero] at hdrop
  have hne : pat.drop (a.drop k).length ≠ [] := by
    intro hx
    have hx2 := congrArg List.length hx
    rw [List.length_drop] at hx2
    simp only [List.length_nil] at hx2
    omega
  obtain ⟨c, cs, hcc⟩ := List.exists_cons_of_ne_nil hne
  rw [hcc] at hdrop
  injection hdrop with hc _
  have hcmem : c ∈ pat := by
    have hm : c ∈ pat.drop (a.drop k).length := by
      rw [hcc]; exact List.mem_cons_self c cs
    rw [← List.take_append_drop (a.drop k).length pat]
    exact List.mem_append_right _ hm
  rw [← hc] at hcmem
  exact hnl hcmem

/-- A pattern that is a prefix of an append and fits inside the left
part is a prefix of the left part. -/
theorem pref_append_left (pat X b : List Char)
    (h : pat.isPrefixOf (X ++ b) = true) (hl : pat.length ≤ X.length) :
    pat.isPrefixOf X = true := by
  obtain ⟨s, hs⟩ := (isPrefixOf_iff_append pat _).mp h
  apply (isPrefixOf_iff_append pat _).mpr
  refine ⟨X.drop pat.length, ?_⟩
  have h1 : (X ++ b).take pat.length = X.take pat.length := by
    rw [List.take_append_eq_append_take]
    have h0 : pat.length - X.length = 0 := by omega
    rw [h0, List.take_zero, List.append_nil]
  have h2 : (pat ++ s).take pat.length = pat := by
    rw [List.take_append_eq_append_take]
    have h0 : pat.length - pat.length = 0 := by omega
    rw [h0, List.take_zero, List.append_nil, List.take_length]
  have h3 : X.take pat.length = pat := by
    rw [← h1, hs, h2]
  conv_lhs => rw [← List.take_append_drop pat.length X]
  rw [h3]

/-- Unfolding `remove_section` when the section header does not occur. -/
theorem remove_section_eq_of_none (text header : List Char)
    (h : findSufIdx (fun s => (sectionPat header).isPrefixOf s) text = none) :
    remove_section text header = text := by
  unfold remove_section
  rw [h]

/-- Unfolding `remove_section` in the truncate-to-end case. -/
theorem remove_section_eq_tail (text header : List Char) (i : Nat)
    (h1 : findSufIdx (fun s => (sectionPat header).isPrefixOf s) text = some i)
    (h2 : findSufIdx isNextHeaderAt
      (text.drop (i + (sectionPat header).length)) = none) :
    remove_section text header = text.take i := by
  unfold remove_section
  rw [h1]
  simp only [h2]

/-- Unfolding `remove_section` in the delete-up-to-next-header case. -/
theorem remove_section_eq_found (text header : List Char) (i off : Nat)
    (h1 : findSufIdx (fun s => (sectionPat header).isPrefixOf s) text = some i)
    (h2 : findSufIdx isNextHeaderAt
      (text.drop (i + (sectionPat header).length)) = some off) :
    remove_section text header =
      text.take i ++ text.drop (i + (sectionPat header).length + off) := by
  unfold remove_section
  rw [h1]
  simp only [h2]

/-- A position matching the next-header pattern starts with a newline. -/
theorem isNextHeaderAt_newline (l : List Char) (h : isNextHeaderAt l = true) :
    ∃ tl, l = '\n' :: tl := by
  unfold isNextHeaderAt at h
  split at h
  · exact ⟨_, rfl⟩
  · cases h

/-- After one `remove_section`, a header that occurred at most once does
not occur any more. -/
theorem remove_section_no_header (t header : List Char)
    (hnl : '\n' ∉ sectionPat header)
    (hocc : occCount (sectionPat header) t ≤ 1) :
    findSufIdx (fun s => (sectionPat header).isPrefixOf s)
      (remove_section t header) = none := by
  have hpat : sectionPat header ≠ [] := by simp [sectionPat]
  have hpos : 0 < (sectionPat header).length := List.length_pos.mpr hpat
  cases h1 : findSufIdx (fun s => (sectionPat header).isPrefixOf s) t with
  | none =>
    rw [remove_section_eq_of_none t header h1]
    exact h1
  | some i =>
    obtain ⟨hp_i, hmin⟩ := findSufIdx_some_spec _ t i h1
    have hIlen : i + (sectionPat header).length ≤ t.length :=
      occ_le_length _ t i hpat hp_i
    have htake_len : (t.take i).length = i := by
      rw [List.length_take]; omega
    cases h2 : findSufIdx isNextHeaderAt
        (t.drop (i + (sectionPat header).length)) with
    | none =>
      rw [remove_section_eq_tail t header i h1 h2]
      apply findSufIdx_eq_none
      intro k
      cases hk : (sectionPat header).isPrefixOf ((t.take i).drop k) with
      | false => rfl
      | true =>
        exfalso
        obtain ⟨hkt, hki⟩ := occ_take _ t i k hk
        have hcontra := hmin k (hki hpat)
        rw [hkt] at hcontra
        cases hcontra
    | some off =>
      rw [remove_section_eq_found t header i off h1 h2]
      have hnh : isNextHeaderAt
          (t.drop (i + (sectionPat header).length + off)) = true := by
        have hfst := (findSufIdx_some_spec _ _ off h2).1
        rw [List.drop_drop] at hfst
        exact hfst
      obtain ⟨tl, htl⟩ := isNextHeaderAt_newline _ hnh
      apply findSufIdx_eq_none
      intro k
      cases hk : (sectionPat header).isPrefixOf
          ((t.take i ++ t.drop (i + (sectionPat header).length + off)).drop k) with
      | false => rfl
      | true =>
        exfalso
        rcases lt_or_ge k (t.take i).length with hlt | hge
        · rcases le_or_lt (k + (sectionPat header).length) i with hin | hcross
          · have hsplit :
                (t.take i ++ t.drop (i + (sectionPat header).length + off)).drop k =
                  (t.take i).drop k ++
                    t.drop (i + (sectionPat header).length + off) := by
              rw [List.drop_append_eq_append_drop]
              have h0 : k - (t.take i).length = 0 := by omega
              rw [h0, List.drop_zero]
            rw [hsplit] at hk
            have hplen : (sectionPat header).length ≤ ((t.take i).drop k).length := by
              rw [List.length_drop, htake_len]; omega
            have hk2 := pref_append_left _ _ _ hk hplen
            obtain ⟨hkt, hki⟩ := occ_take _ t i k hk2
            have hcontra := hmin k (hki hpat)
            rw [hkt] at hcontra
            cases hcontra
          · rw [htl] at hk
            exact no_cross _ (t.take i) tl k hnl hlt
              (by rw [htake_len]; omega) hk
        · have hk2 := occ_right _ (t.take i)
            (t.drop (i + (sectionPat header).length + off)) k hge hk
          rw [List.drop_drop] at hk2
          have heq := occ_unique _ t hpat hocc i
            (i + (sectionPat header).length + off + (k - (t.take i).length))
            hp_i hk2
          omega

/-- Applying `remove_section` twice for a header occurring at most once
is the same as applying it once. -/
theorem remove_section_idem (t header : List Char)
    (hnl : '\n' ∉ sectionPat header)
    (hocc : occCount (sectionPat header) t ≤ 1) :
    remove_section (remove_section t header) header = remove_section t header :=
  remove_section_eq_of_none _ header (remove_section_no_header t header hnl hocc)

/-- A brace-free text is substituted to itself. -/
theorem formatMap_no_braces (ctx : List Char → Option (List Char)) :
    ∀ l, (∀ c ∈ l, c ≠ '{' ∧ c ≠ '}') → formatMap ctx l = some l := by
  intro l
  induction l with
  | nil => intro _; simp [formatMap]
  | cons c rest ih =>
    intro h
    obtain ⟨hc1, hc2⟩ := h c (List.mem_cons_self c rest)
    rw [formatMap, if_neg hc1, if_neg hc2,
      ih (fun x hx => h x (List.mem_cons_of_mem c hx))]
    rfl

/-- The `Examples` header contains no newline. -/
theorem examples_pat_no_newline : '\n' ∉ sectionPat examplesHeader := by decide

/-- C8.  The claim asserts idempotence of the `Examples`-section removal
for every template.  It is false: the removal deletes only the first
`Examples` section, so a template with two such sections changes again
on the second application. -/
theorem C8_counterexample :
    remove_section (remove_section templateTwoExamples examplesHeader)
        examplesHeader ≠
      remove_section templateTwoExamples examplesHeader := by
  decide

/-- C8 (amended).  For templates in which the `[Examples]` header occurs
at most once, applying the section removal to its own output yields
identical output; rendering with `use_examples = true` performs no
removal at all (the template goes to substitution unchanged), so a
template without placeholder braces — in particular its `Examples`
section — is reproduced verbatim. -/
theorem C8_examples_gate (t : List Char) (ctx : List Char → Option (List Char))
    (hocc : occCount (sectionPat examplesHeader) t ≤ 1) :
    remove_section (remove_section t examplesHeader) examplesHeader =
      remove_section t examplesHeader ∧
    render_prompt t ctx true = formatMap ctx t ∧
    ((∀ c ∈ t, c ≠ '{' ∧ c ≠ '}') → render_prompt t ctx true = some t) :=
  ⟨remove_section_idem t examplesHeader examples_pat_no_newline hocc, rfl,
   fun hb => formatMap_no_braces ctx t hb⟩

/-- C8 witness: a concrete template with one `Examples` section. -/
theorem C8_witness :
    occCount (sectionPat examplesHeader) templateOneExamples ≤ 1 ∧
    remove_section (remove_section templateOneExamples examplesHeader)
        examplesHeader =
      remove_section templateOneExamples examplesHeader :=
  ⟨by decide,
   (C8_examples_gate templateOneExamples (fun _ => none) (by decide)).1⟩

/-- `str.format_map` consumes exactly the key of a well-formed
placeholder. -/
theorem takeWhile_key (key b : List Char) (hkey : ∀ c ∈ key, c ≠ '}') :
    (key ++ '}' :: b).takeWhile (fun x => x != '}') = key := by
  induction key with
  | nil => simp [List.takeWhile_cons]
  | cons c cs ih =>
    have hc : c ≠ '}' := hkey c (List.mem_cons_self _ _)
    rw [List.cons_append, List.takeWhile_cons, if_pos (by simp [hc]),
      ih (fun x hx => hkey x (List.mem_cons_of_mem _ hx))]

/-- Evaluation of `formatMap` at the head of a well-formed placeholder:
lookup failure propagates as an error, lookup success substitutes the
literal value. -/
theorem formatMap_placeholder (ctx : List Char → Option (List Char))
    (key b : List Char) (hkey : ∀ c ∈ key, c ≠ '{' ∧ c ≠ '}')
    (hne : key ≠ []) :
    formatMap ctx ('{' :: (key ++ '}' :: b)) =
      (ctx key).bind (fun v => (formatMap ctx b).map (fun r => v ++ r)) := by
  obtain ⟨k0, key2, rfl⟩ := List.exists_cons_of_ne_nil hne
  have hk0 : k0 ≠ '{' := (hkey k0 (List.mem_cons_self _ _)).1
  have hkeyr : ∀ c ∈ k0 :: key2, c ≠ '}' := fun c hc => (hkey c hc).2
  rw [formatMap, if_pos rfl]
  have hh : ((k0 :: key2) ++ '}' :: b).head? = some k0 := rfl
  rw [hh, if_neg (by simp [hk0])]
  rw [takeWhile_key (k0 :: key2) b hkeyr]
  simp only [List.drop_left, List.head?_cons, List.tail_cons]
  simp

/-- C9.  An unresolved placeholder makes the substitution fail (the
raised error, modelled as `none`) rather than passing the placeholder
through; a resolvable placeholder is replaced by its literal value, the
surrounding text being preserved. -/
theorem C9_placeholder_substitution (a key b : List Char)
    (ctx : List Char → Option (List Char))
    (ha : ∀ c ∈ a, c ≠ '{' ∧ c ≠ '}')
    (hkey : ∀ c ∈ key, c ≠ '{' ∧ c ≠ '}') (hne : key ≠ []) :
    (ctx key = none → formatMap ctx (a ++ '{' :: (key ++ '}' :: b)) = none) ∧
    (∀ v, ctx key = some v →
      formatMap ctx (a ++ '{' :: (key ++ '}' :: b)) =
        (formatMap ctx b).map (fun r => a ++ (v ++ r))) := by
  induction a with
  | nil =>
    simp only [List.nil_append]
    rw [formatMap_placeholder ctx key b hkey hne]
    constructor
    · intro h
      rw [h]
      rfl
    · intro v hv
      rw [hv]
      cases hf : formatMap ctx b <;> simp [hf]
  | cons c a2 ih =>
    obtain ⟨hc1, hc2⟩ := ha c (List.mem_cons_self _ _)
    have ih2 := ih (fun x hx => ha x (List.mem_cons_of_mem _ hx))
    constructor
    · intro h
      rw [List.cons_append, formatMap, if_neg hc1, if_neg hc2, ih2.1 h]
      rfl
    · intro v hv
      rw [List.cons_append, formatMap, if_neg hc1, if_neg hc2, ih2.2 v hv]
      cases hf : formatMap ctx b <;> simp [hf]

/-- C9 witness: rendering `A: {X}!` with `X ↦ 42` substitutes the
literal value; the surrounding text is untouched. -/
theorem C9_witness :
    ctxSample ("X".data) = some ("42".data) ∧
    formatMap ctxSample (("A: ".data) ++ '{' :: (("X".data) ++ '}' :: ("!".data))) =
      (formatMap ctxSample ("!".data)).map
        (fun r => ("A: ".data) ++ (("42".data) ++ r)) :=
  ⟨rfl,
   (C9_placeholder_substitution ("A: ".data) ("X".data) ("!".data) ctxSample
      (by decide) (by decide) (by decide)).2 ("42".data) rfl⟩

end CodexUP










